import Mathlib

/-!
Verification of the QTiles tile-generation core: the quadtree pyramid
enumerator (`QTilesDialog.count_tiles`), the rendering pipeline
(`TilingThread.run` with its threshold gate and cooperative stop), the
tile writers (`writers.py`), and the MBTiles deduplication compaction
pass.  Python functions are embedded shallowly: external QGIS geometry
(rectangle intersection after CRS transforms) is abstracted as Boolean
oracles, machine state as explicit values, and fallible code as
`Option`.
-/

namespace QTiles

/-- The tile value from `tile.py` (not under `src/`): zoom `z`,
column `x`, row `y`, and the TMS marker carried as `1` or `-1`
(`use_tms = -1 if tms_convention else 1` in `QTilesDialog.accept`).
The enumerator only constructs and propagates these fields. -/
structure Tile where
  x : Nat
  y : Nat
  z : Nat
  tms : Int
deriving DecidableEq

/-- The four children constructed by the nested loops in
`QTilesDialog.count_tiles`: `x` ranges over `{2x, 2x+1}` (outer loop)
and `y` over `{2y, 2y+1}` (inner loop), at zoom `z+1`, keeping `tms`. -/
def childrenOf (t : Tile) : List Tile :=
  [ ⟨2 * t.x, 2 * t.y, t.z + 1, t.tms⟩,
    ⟨2 * t.x, 2 * t.y + 1, t.z + 1, t.tms⟩,
    ⟨2 * t.x + 1, 2 * t.y, t.z + 1, t.tms⟩,
    ⟨2 * t.x + 1, 2 * t.y + 1, t.z + 1, t.tms⟩ ]

/-- A layer is abstracted by its per-tile intersection test: the truth
value of `crs_transform.transform(layer.extent()).intersects(tile.toRectangle())`
computed by external QGIS geometry in `count_tiles`. -/
abbrev LayerTest := Tile → Bool

/-- The `for layer in layers: ... if ...: append; break` loop of
`count_tiles`, which stops at the first matching layer. -/
def firstLayerMatch : List LayerTest → Tile → Bool
  | [], _ => false
  | l :: ls, t => if l t then true else firstLayerMatch ls t

/-- The step-2 inclusion filter of `count_tiles`: when
`min_zoom <= tile.z <= max_zoom`, the tile is appended either
unconditionally (`render_outside_tiles`) or when some layer's
transformed extent intersects the tile rectangle. -/
def includeTiles (layers : List LayerTest) (minZoom maxZoom : Nat)
    (renderOutsideTiles : Bool) (t : Tile) : List Tile :=
  if minZoom ≤ t.z ∧ t.z ≤ maxZoom then
    if renderOutsideTiles = false then
      if firstLayerMatch layers t then [t] else []
    else [t]
  else []

/-- Fuel-indexed recursion for `count_tiles`.  The source recursion
descends only while `tile.z < max_zoom`, so from a tile at zoom `z` at
most `max_zoom - z + 1` levels are visited; `count_tiles` below supplies
exactly that fuel, making the fuel parameter track `max_zoom - z + 1`
precisely and the zero case unreachable. -/
def count_tiles_go (ext : Tile → Bool) (layers : List LayerTest)
    (minZoom maxZoom : Nat) (renderOutsideTiles : Bool) :
    Nat → Tile → Option (List Tile)
  | 0, _ => none
  | fuel + 1, t =>
    if ext t = false then none
    else
      let tiles := includeTiles layers minZoom maxZoom renderOutsideTiles t
      if t.z < maxZoom then
        some (tiles
          ++ (count_tiles_go ext layers minZoom maxZoom renderOutsideTiles fuel
                ⟨2 * t.x, 2 * t.y, t.z + 1, t.tms⟩).getD []
          ++ (count_tiles_go ext layers minZoom maxZoom renderOutsideTiles fuel
                ⟨2 * t.x, 2 * t.y + 1, t.z + 1, t.tms⟩).getD []
          ++ (count_tiles_go ext layers minZoom maxZoom renderOutsideTiles fuel
                ⟨2 * t.x + 1, 2 * t.y, t.z + 1, t.tms⟩).getD []
          ++ (count_tiles_go ext layers minZoom maxZoom renderOutsideTiles fuel
                ⟨2 * t.x + 1, 2 * t.y + 1, t.z + 1, t.tms⟩).getD [])
      else some tiles

/-- `QTilesDialog.count_tiles(tile, layers, extent, min_zoom, max_zoom,
render_outside_tiles)`.  Returns `none` (Python `None`) when the extent
does not intersect the tile rectangle — the test
`extent.intersects(tile.toRectangle())` is the oracle `ext`.  Otherwise
returns the inclusion-filtered tile followed by the four children's
results in loop order; Python's `if sub_tiles: tiles.extend(sub_tiles)`
skips `None` (and harmlessly the empty list), which `Option.getD []`
models. -/
def count_tiles (ext : Tile → Bool) (layers : List LayerTest)
    (minZoom maxZoom : Nat) (renderOutsideTiles : Bool) (t : Tile) :
    Option (List Tile) :=
  count_tiles_go ext layers minZoom maxZoom renderOutsideTiles
    (maxZoom - t.z + 1) t

/-- The quadtree parent: each child produced by `childrenOf` maps back
to its creator (coordinates halve, zoom decrements). -/
def parentTile (t : Tile) : Tile := ⟨t.x / 2, t.y / 2, t.z - 1, t.tms⟩

/-- Iterated parent. -/
def ancestorIter : Nat → Tile → Tile
  | 0, t => t
  | k + 1, t => parentTile (ancestorIter k t)

/-- `a` is an ancestor of `u` or `u` itself, in the quadtree generated
by `childrenOf`: `u`'s chain of parents reaches `a` after `u.z - a.z`
steps. -/
def descOrSelf (a u : Tile) : Prop :=
  a.z ≤ u.z ∧ ancestorIter (u.z - a.z) u = a

instance (a u : Tile) : Decidable (descOrSelf a u) := by
  unfold descOrSelf; infer_instance

/-- Outcome of the post-enumeration check in `QTilesDialog.accept`:
`if tiles is None:` shows the "current map extent does not intersect
with the tiles" error box and returns; otherwise the run proceeds with
the returned list. -/
inductive CountOutcome where
  | errorExtent : CountOutcome
  | proceed : List Tile → CountOutcome
deriving DecidableEq

/-- The branch of `QTilesDialog.accept` right after `count_tiles`. -/
def acceptCountCheck : Option (List Tile) → CountOutcome
  | none => CountOutcome.errorExtent
  | some ts => CountOutcome.proceed ts

/-- All structurally valid tile addresses up to a maximum zoom: zoom
`z ≤ maxZoom`, coordinates below `2 ^ z`. -/
def allTilesUpTo (maxZoom : Nat) (tms : Int) : List Tile :=
  (List.range (maxZoom + 1)).flatMap fun z =>
    (List.range (2 ^ z)).flatMap fun x =>
      (List.range (2 ^ z)).map fun y => ⟨x, y, z, tms⟩

end QTiles

namespace QTiles

/-! ### The rendering pipeline (`TilingThread`) -/

/-- The decision delivered while `run` is blocked on `confirmMutex`:
`QTilesDialog.confirmContinueThreshold` calls exactly one of
`confirmContinue` (plain unlock) or `confirmStop` (sets
`interrupted = True`, then unlocks). -/
inductive GateDecision where
  | cont : GateDecision
  | stop : GateDecision
deriving DecidableEq

/-- Terminal signal of `TilingThread.run`: `processFinished` or
`processInterrupted`. -/
inductive Terminal where
  | finished : Terminal
  | interrupted : Terminal
deriving DecidableEq

/-- Observable summary of one execution of `TilingThread.run`. -/
structure RunResult where
  thresholdEvents : List Nat
  rendered : Nat
  finalizeCalls : Nat
  terminal : Terminal
deriving DecidableEq

/-- `TilingThread.warring_threshold_tiles_count`. -/
def warring_threshold_tiles_count : Nat := 10000

/-- The rendering loop of `run`: each iteration renders a tile, emits
progress, then reads `stopMe` under the mutex and breaks with
`interrupted = True` if it is set.  `stopAfter = some k` means the
`stop()` flag becomes visible at the check following the `k`-th
(0-based) tile; `none` means no `stop()` arrives. -/
def renderLoop (tilesCount : Nat) (stopAfter : Option Nat) : Nat × Bool :=
  match stopAfter with
  | none => (tilesCount, false)
  | some k => if k < tilesCount then (k + 1, true) else (tilesCount, false)

/-- `TilingThread.run` after the writer is constructed: when the tile
list exceeds the threshold it locks `confirmMutex` and emits one
`threshold` event; the second `confirmMutex.lock()` then blocks until
the driver's decision (with at most the threshold it is acquired
immediately and no event is emitted).  If `interrupted` was set by
`confirmStop`, `run` emits `processInterrupted` and returns — note that
this early return happens before `self.writer.finalize()`.  Otherwise
the loop runs and `finalize` is called exactly once before the terminal
signal. -/
def threadRun (tilesCount : Nat) (gate : GateDecision)
    (stopAfter : Option Nat) : RunResult :=
  let events :=
    if tilesCount > warring_threshold_tiles_count then
      [warring_threshold_tiles_count]
    else []
  if tilesCount > warring_threshold_tiles_count ∧ gate = GateDecision.stop then
    { thresholdEvents := events, rendered := 0, finalizeCalls := 0,
      terminal := Terminal.interrupted }
  else
    let r := renderLoop tilesCount stopAfter
    { thresholdEvents := events, rendered := r.1, finalizeCalls := 1,
      terminal := if r.2 then Terminal.interrupted else Terminal.finished }

/-! ### Output-mode selection and the TMS convention -/

/-- Python's `str.lower()` on one character, for the ASCII suffixes
compared in the source. -/
def lowerChar (c : Char) : Char :=
  if c.isUpper then Char.ofNat (c.toNat + 32) else c

/-- Python's `str.lower()`; a suffix is modelled as its list of
characters. -/
def strLower (s : List Char) : List Char := s.map lowerChar

/-- The writer mode chosen in `TilingThread.__init__` from the output
`QFileInfo`. -/
inductive OutputMode where
  | dir : OutputMode
  | zip : OutputMode
  | ngm : OutputMode
  | mbtiles : OutputMode
deriving DecidableEq

/-- The `if/elif` chain of `TilingThread.__init__`: directory first,
then suffix comparisons after `.lower()`; no branch matches for any
other suffix (the attribute is left unset, modelled as `none`). -/
def threadMode (isDir : Bool) (suffix : List Char) : Option OutputMode :=
  if isDir then some OutputMode.dir
  else if strLower suffix = "zip".data then some OutputMode.zip
  else if strLower suffix = "ngrc".data then some OutputMode.ngm
  else if strLower suffix = "mbtiles".data then some OutputMode.mbtiles
  else none

/-- `self.tmsConvention` after `TilingThread.__init__`: the constructor
stores the incoming flag and overwrites it with `True` only in the
MBTILES branch. -/
def thread_tmsConvention (isDir : Bool) (suffix : List Char)
    (incoming : Bool) : Bool :=
  if threadMode isDir suffix = some OutputMode.mbtiles then true
  else incoming

/-- `tms_convention` as computed in `QTilesDialog.accept` before the
tile list is built: the checkbox value, forced to `True` when
`file_info.suffix().lower() == "mbtiles"`. -/
def dialog_tmsConvention (suffix : List Char) (userFlag : Bool) : Bool :=
  if strLower suffix = "mbtiles".data then true else userFlag

/-! ### `NGMArchiveWriter` bookkeeping -/

/-- The `self.levels` dictionary of `NGMArchiveWriter`, an association
from zoom level to the lists of observed `x` and `y` coordinates, in
insertion order. -/
abbrev NgmLevels := List (Nat × (List Nat × List Nat))

/-- Dictionary assignment `self.levels[tile.z] = level`: replace the
entry in place when the key exists, append otherwise. -/
def setLevel : NgmLevels → Nat → (List Nat × List Nat) → NgmLevels
  | [], z, v => [(z, v)]
  | (k, w) :: rest, z, v =>
    if k = z then (k, v) :: rest else (k, w) :: setLevel rest z v

/-- `NGMArchiveWriter.writeTile` bookkeeping: fetch the level entry
(defaulting to empty lists), append the tile's `x` and `y`, store it
back. -/
def ngmWriteTile (levels : NgmLevels) (t : Tile) : NgmLevels :=
  let cur := ((levels.lookup t.z).getD ([], []))
  setLevel levels t.z (cur.1 ++ [t.x], cur.2 ++ [t.y])

/-- One `levels` entry of the NGM manifest JSON. -/
structure NgmLevelEntry where
  level : Nat
  bbox_maxx : Nat
  bbox_maxy : Nat
  bbox_minx : Nat
  bbox_miny : Nat
deriving DecidableEq

/-- The manifest assembled by `NGMArchiveWriter.finalize`. -/
structure NgmManifest where
  max_level : Nat
  min_level : Nat
  levels : List NgmLevelEntry
deriving DecidableEq

/-- The per-level bounding box computed in the finalize loop:
`max(coords["x"])` etc., raising (`none`) on an empty list. -/
def ngmLevelEntry (e : Nat × (List Nat × List Nat)) : Option NgmLevelEntry :=
  match e.2.1.max?, e.2.1.min?, e.2.2.max?, e.2.2.min? with
  | some mxx, some mnx, some mxy, some mny =>
    some ⟨e.1, mxx, mxy, mnx, mny⟩
  | _, _, _, _ => none

/-- `NGMArchiveWriter.finalize`'s manifest computation:
`max(self.levels.keys())` and `min(self.levels.keys())` raise
`ValueError` on an empty dictionary (modelled as `none`); otherwise the
per-level bounding boxes are collected. -/
def ngmFinalize (levels : NgmLevels) : Option NgmManifest :=
  match (levels.map Prod.fst).max?, (levels.map Prod.fst).min? with
  | some mx, some mn =>
    (levels.mapM ngmLevelEntry).map fun es =>
      { max_level := mx, min_level := mn, levels := es }
  | _, _ => none

/-! ### MBTiles compaction (deduplication pass) -/

/-- Tile payload bytes. -/
abbrev Bytes := List Nat

/-- A pre-compaction row of the `tiles` table. -/
structure TileRow where
  z : Nat
  x : Nat
  y : Nat
  data : Bytes
deriving DecidableEq

/-- Modelled from the spec: the CompactionEngine run by
`MBTilesWriter.finalize` lives in `mbutils.py`
(`compression_prepare` / `compression_do` / `compression_finalize`),
which is not under `src/`.  Streaming every `(zoom_level, tile_column,
tile_row, data)` row, it hashes the payload, inserts the payload into
`blobs` when unseen, and records a reference; a hash match with
differing bytes counts as a distinct blob (full-content equality
resolves collisions).  `blobs` is the table of distinct payloads and
the reference is the payload's position in it. -/
def compactGo (hash : Bytes → Nat) :
    List Bytes → List ((Nat × Nat × Nat) × Nat) → List TileRow →
    List Bytes × List ((Nat × Nat × Nat) × Nat)
  | blobs, tiles2, [] => (blobs, tiles2)
  | blobs, tiles2, row :: rest =>
    match blobs.findIdx? (fun b => hash b == hash row.data && b == row.data) with
    | some i =>
      compactGo hash blobs (tiles2 ++ [((row.z, row.x, row.y), i)]) rest
    | none =>
      compactGo hash (blobs ++ [row.data])
        (tiles2 ++ [((row.z, row.x, row.y), blobs.length)]) rest

/-- Modelled from the spec: the whole compaction pass, starting from an
empty `blobs` table and an empty reference table. -/
def compact (hash : Bytes → Nat) (rows : List TileRow) :
    List Bytes × List ((Nat × Nat × Nat) × Nat) :=
  compactGo hash [] [] rows

/-- Pre-compaction lookup: the first row at the coordinate. -/
def lookupPre (rows : List TileRow) (c : Nat × Nat × Nat) : Option Bytes :=
  (rows.find? fun r => (r.z, r.x, r.y) = c).map TileRow.data

/-- Post-compaction lookup: resolve the coordinate in the reference
table, then follow `data_ref` into `blobs`. -/
def lookupPost (st : List Bytes × List ((Nat × Nat × Nat) × Nat))
    (c : Nat × Nat × Nat) : Option Bytes :=
  (st.2.find? fun e => e.1 = c).bind fun e => st.1[e.2]?

end QTiles

namespace QTiles

/-! ### Basic lemmas about the enumerator -/

theorem firstLayerMatch_eq_any (layers : List LayerTest) (t : Tile) :
    firstLayerMatch layers t = layers.any fun l => l t := by
  induction layers with
  | nil => rfl
  | cons l ls ih =>
    by_cases h : l t = true
    · simp [firstLayerMatch, h]
    · simp only [Bool.not_eq_true] at h
      simp [firstLayerMatch, h, ih]

theorem count_tiles_eq_none_iff (ext : Tile → Bool) (layers : List LayerTest)
    (minZoom maxZoom : Nat) (ro : Bool) (t : Tile) :
    count_tiles ext layers minZoom maxZoom ro t = none ↔ ext t = false := by
  unfold count_tiles
  rw [show maxZoom - t.z + 1 = Nat.succ (maxZoom - t.z) from rfl]
  rw [count_tiles_go]
  by_cases h : ext t = false
  · simp [h]
  · rw [if_neg h]
    constructor
    · intro hnone
      exfalso
      revert hnone
      split <;> simp
    · intro hfalse
      exact absurd hfalse h

theorem count_tiles_leaf (ext : Tile → Bool) (layers : List LayerTest)
    (minZoom maxZoom : Nat) (ro : Bool) (t : Tile)
    (hext : ext t = true) (hge : ¬ t.z < maxZoom) :
    count_tiles ext layers minZoom maxZoom ro t =
      some (includeTiles layers minZoom maxZoom ro t) := by
  unfold count_tiles
  rw [show maxZoom - t.z + 1 = Nat.succ (maxZoom - t.z) from rfl]
  rw [count_tiles_go]
  simp [hext, hge]

theorem count_tiles_step (ext : Tile → Bool) (layers : List LayerTest)
    (minZoom maxZoom : Nat) (ro : Bool) (t : Tile)
    (hext : ext t = true) (hlt : t.z < maxZoom) :
    count_tiles ext layers minZoom maxZoom ro t =
      some (includeTiles layers minZoom maxZoom ro t
        ++ (count_tiles ext layers minZoom maxZoom ro
              ⟨2 * t.x, 2 * t.y, t.z + 1, t.tms⟩).getD []
        ++ (count_tiles ext layers minZoom maxZoom ro
              ⟨2 * t.x, 2 * t.y + 1, t.z + 1, t.tms⟩).getD []
        ++ (count_tiles ext layers minZoom maxZoom ro
              ⟨2 * t.x + 1, 2 * t.y, t.z + 1, t.tms⟩).getD []
        ++ (count_tiles ext layers minZoom maxZoom ro
              ⟨2 * t.x + 1, 2 * t.y + 1, t.z + 1, t.tms⟩).getD []) := by
  have hfuel : maxZoom - t.z + 1 = Nat.succ (maxZoom - (t.z + 1) + 1) := by
    omega
  unfold count_tiles
  rw [hfuel, count_tiles_go]
  simp [hext, hlt]

end QTiles

namespace QTiles

theorem mem_includeTiles {layers : List LayerTest} {minZoom maxZoom : Nat}
    {ro : Bool} {t u : Tile} (h : u ∈ includeTiles layers minZoom maxZoom ro t) :
    u = t := by
  unfold includeTiles at h
  split_ifs at h <;> simp_all

theorem ancestors_extend {ext : Tile → Bool} {t0 c u : Tile}
    (hext : ext t0 = true) (hpc : parentTile c = t0) (hcz : c.z = t0.z + 1)
    (h1 : c.z ≤ u.z) (h2 : ancestorIter (u.z - c.z) u = c)
    (h3 : ∀ k, k ≤ u.z - c.z → ext (ancestorIter k u) = true) :
    t0.z ≤ u.z ∧ ancestorIter (u.z - t0.z) u = t0 ∧
      ∀ k, k ≤ u.z - t0.z → ext (ancestorIter k u) = true := by
  have hz : t0.z ≤ u.z := by omega
  have hstep : u.z - t0.z = (u.z - c.z) + 1 := by omega
  have hanc : ancestorIter (u.z - t0.z) u = t0 := by
    rw [hstep]
    show parentTile (ancestorIter (u.z - c.z) u) = t0
    rw [h2, hpc]
  refine ⟨hz, hanc, ?_⟩
  intro k hk
  rcases Nat.lt_or_ge k (u.z - t0.z) with hlt | hge
  · exact h3 k (by omega)
  · have hkeq : k = u.z - t0.z := by omega
    rw [hkeq, hanc]
    exact hext

theorem parent_child_nw (t : Tile) :
    parentTile ⟨2 * t.x, 2 * t.y, t.z + 1, t.tms⟩ = t := by
  cases t with
  | mk x y z tms =>
    simp only [parentTile, Tile.mk.injEq]
    refine ⟨by omega, by omega, by omega, trivial⟩

theorem parent_child_ne (t : Tile) :
    parentTile ⟨2 * t.x, 2 * t.y + 1, t.z + 1, t.tms⟩ = t := by
  cases t with
  | mk x y z tms =>
    simp only [parentTile, Tile.mk.injEq]
    refine ⟨by omega, by omega, by omega, trivial⟩

theorem parent_child_sw (t : Tile) :
    parentTile ⟨2 * t.x + 1, 2 * t.y, t.z + 1, t.tms⟩ = t := by
  cases t with
  | mk x y z tms =>
    simp only [parentTile, Tile.mk.injEq]
    refine ⟨by omega, by omega, by omega, trivial⟩

theorem parent_child_se (t : Tile) :
    parentTile ⟨2 * t.x + 1, 2 * t.y + 1, t.z + 1, t.tms⟩ = t := by
  cases t with
  | mk x y z tms =>
    simp only [parentTile, Tile.mk.injEq]
    refine ⟨by omega, by omega, by omega, trivial⟩

/-- Every tile in the result of the enumerator descends from the start
tile, and every ancestor on the chain between them passed the extent
intersection test (the pruning guard). -/
theorem mem_count_tiles_go_ancestors (ext : Tile → Bool)
    (layers : List LayerTest) (minZoom maxZoom : Nat) (ro : Bool) :
    ∀ (fuel : Nat) (t0 u : Tile),
      u ∈ (count_tiles_go ext layers minZoom maxZoom ro fuel t0).getD [] →
      t0.z ≤ u.z ∧ ancestorIter (u.z - t0.z) u = t0 ∧
        ∀ k, k ≤ u.z - t0.z → ext (ancestorIter k u) = true := by
  intro fuel
  induction fuel with
  | zero =>
    intro t0 u h
    simp [count_tiles_go] at h
  | succ fuel ih =>
    intro t0 u h
    rw [count_tiles_go] at h
    by_cases hext : ext t0 = false
    · simp [hext] at h
    · rw [if_neg hext] at h
      have hext' : ext t0 = true := by
        cases hb : ext t0
        · exact absurd hb hext
        · rfl
      by_cases hlt : t0.z < maxZoom
      · rw [if_pos hlt] at h
        simp only [Option.getD_some, List.mem_append] at h
        rcases h with ((((hself | h1) | h2) | h3) | h4)
        · have := mem_includeTiles hself
          subst this
          exact ⟨le_refl _, by simp [ancestorIter], fun k hk => by
            have : k = 0 := by omega
            rw [this]
            exact hext'⟩
        · obtain ⟨a1, a2, a3⟩ := ih _ u h1
          exact ancestors_extend hext' (parent_child_nw t0) rfl a1 a2 a3
        · obtain ⟨a1, a2, a3⟩ := ih _ u h2
          exact ancestors_extend hext' (parent_child_ne t0) rfl a1 a2 a3
        · obtain ⟨a1, a2, a3⟩ := ih _ u h3
          exact ancestors_extend hext' (parent_child_sw t0) rfl a1 a2 a3
        · obtain ⟨a1, a2, a3⟩ := ih _ u h4
          exact ancestors_extend hext' (parent_child_se t0) rfl a1 a2 a3
      · rw [if_neg hlt] at h
        simp only [Option.getD_some] at h
        have := mem_includeTiles h
        subst this
        exact ⟨le_refl _, by simp [ancestorIter], fun k hk => by
          have hk0 : k = 0 := by omega
          rw [hk0]
          exact hext'⟩

/-- Specialization to `count_tiles`. -/
theorem mem_count_tiles_ancestors {ext : Tile → Bool}
    {layers : List LayerTest} {minZoom maxZoom : Nat} {ro : Bool}
    {t0 u : Tile}
    (h : u ∈ (count_tiles ext layers minZoom maxZoom ro t0).getD []) :
    t0.z ≤ u.z ∧ ancestorIter (u.z - t0.z) u = t0 ∧
      ∀ k, k ≤ u.z - t0.z → ext (ancestorIter k u) = true :=
  mem_count_tiles_go_ancestors ext layers minZoom maxZoom ro _ t0 u h

end QTiles

namespace QTiles

/-- Claim C2, counterexample: when the extent does not intersect the
root tile's rectangle, `count_tiles` returns `None` — not an empty
list — and `QTilesDialog.accept` reports this as a hard error
(message box) rather than treating it as a non-fatal
"nothing to render"; no degenerate-extent check precedes enumeration. -/
theorem claim_C2_counterexample :
    count_tiles (fun _ => false) [] 0 0 false ⟨0, 0, 0, -1⟩ = none ∧
    count_tiles (fun _ => false) [] 0 0 false ⟨0, 0, 0, -1⟩ ≠ some [] ∧
    acceptCountCheck (count_tiles (fun _ => false) [] 0 0 false ⟨0, 0, 0, -1⟩)
      = CountOutcome.errorExtent := by
  refine ⟨rfl, by decide, rfl⟩

/-- Claim C2, amended: `count_tiles` returns `None` exactly when the
query extent does not intersect the start tile's rectangle, and the
caller treats `None` as a hard failure (error dialog, run aborted);
an intersecting extent always yields a list and the run proceeds. -/
theorem claim_C2 (ext : Tile → Bool) (layers : List LayerTest)
    (minZoom maxZoom : Nat) (ro : Bool) (t : Tile) :
    (count_tiles ext layers minZoom maxZoom ro t = none ↔ ext t = false) ∧
    (acceptCountCheck (count_tiles ext layers minZoom maxZoom ro t) =
        CountOutcome.errorExtent ↔ ext t = false) := by
  have h := count_tiles_eq_none_iff ext layers minZoom maxZoom ro t
  refine ⟨h, ?_⟩
  constructor
  · intro ha
    cases hc : count_tiles ext layers minZoom maxZoom ro t with
    | none => exact h.mp hc
    | some ts =>
      rw [hc] at ha
      exact absurd ha (by simp [acceptCountCheck])
  · intro hf
    rw [h.mpr hf]
    rfl

/-- Claim C3: pruning correctness.  If a tile `t` fails the extent
intersection test, then neither `t` nor any tile in the quadtree
subtree below `t` appears in the output of `count_tiles` started at the
`z = 0` root, for every zoom range, layer list and
`renderOutsideTiles` setting: the recursion returns before visiting the
children of a non-intersecting tile. -/
theorem claim_C3 (ext : Tile → Bool) (layers : List LayerTest)
    (minZoom maxZoom : Nat) (ro : Bool) (tms : Int) (t u : Tile)
    (hext : ext t = false) (hdesc : descOrSelf t u) :
    u ∉ (count_tiles ext layers minZoom maxZoom ro ⟨0, 0, 0, tms⟩).getD [] := by
  intro hmem
  obtain ⟨hz, hanc, hall⟩ := mem_count_tiles_ancestors hmem
  have hb : u.z - t.z ≤ u.z - (⟨0, 0, 0, tms⟩ : Tile).z := by
    show u.z - t.z ≤ u.z - 0
    omega
  have htrue := hall (u.z - t.z) hb
  rw [hdesc.2] at htrue
  rw [hext] at htrue
  exact Bool.noConfusion htrue

theorem claim_C3_witness :
    (fun s : Tile => decide (s.z = 0)) (⟨0, 0, 1, -1⟩ : Tile) = false ∧
    descOrSelf (⟨0, 0, 1, -1⟩ : Tile) (⟨0, 0, 1, -1⟩ : Tile) ∧
    (⟨0, 0, 1, -1⟩ : Tile) ∉
      (count_tiles (fun s => decide (s.z = 0)) [] 0 5 true ⟨0, 0, 0, -1⟩).getD [] :=
  ⟨by decide, by decide,
    claim_C3 (fun s => decide (s.z = 0)) [] 0 5 true (-1)
      ⟨0, 0, 1, -1⟩ ⟨0, 0, 1, -1⟩ (by decide) (by decide)⟩

/-- Claim C4: every tile `t` visited by `count_tiles` (its rectangle
intersects the extent) with `t.z < maxZoom` recurses into exactly the
four children `{2x, 2x+1} × {2y, 2y+1}` at zoom `t.z + 1` in loop
order, and the result is the step-2 inclusion output for `t` followed
by the union (concatenation) of the four children's results —
regardless of whether `t` itself passed the inclusion filter. -/
theorem claim_C4 (ext : Tile → Bool) (layers : List LayerTest)
    (minZoom maxZoom : Nat) (ro : Bool) (t : Tile)
    (hext : ext t = true) (hlt : t.z < maxZoom) :
    childrenOf t =
      [ ⟨2 * t.x, 2 * t.y, t.z + 1, t.tms⟩,
        ⟨2 * t.x, 2 * t.y + 1, t.z + 1, t.tms⟩,
        ⟨2 * t.x + 1, 2 * t.y, t.z + 1, t.tms⟩,
        ⟨2 * t.x + 1, 2 * t.y + 1, t.z + 1, t.tms⟩ ] ∧
    count_tiles ext layers minZoom maxZoom ro t =
      some (includeTiles layers minZoom maxZoom ro t
        ++ (count_tiles ext layers minZoom maxZoom ro
              ⟨2 * t.x, 2 * t.y, t.z + 1, t.tms⟩).getD []
        ++ (count_tiles ext layers minZoom maxZoom ro
              ⟨2 * t.x, 2 * t.y + 1, t.z + 1, t.tms⟩).getD []
        ++ (count_tiles ext layers minZoom maxZoom ro
              ⟨2 * t.x + 1, 2 * t.y, t.z + 1, t.tms⟩).getD []
        ++ (count_tiles ext layers minZoom maxZoom ro
              ⟨2 * t.x + 1, 2 * t.y + 1, t.z + 1, t.tms⟩).getD []) :=
  ⟨rfl, count_tiles_step ext layers minZoom maxZoom ro t hext hlt⟩

theorem claim_C4_witness :
    childrenOf (⟨0, 0, 0, 1⟩ : Tile) =
      [ ⟨0, 0, 1, 1⟩, ⟨0, 1, 1, 1⟩, ⟨1, 0, 1, 1⟩, ⟨1, 1, 1, 1⟩ ] ∧
    count_tiles (fun _ => true) [] 0 1 true ⟨0, 0, 0, 1⟩ =
      some (includeTiles [] 0 1 true ⟨0, 0, 0, 1⟩
        ++ (count_tiles (fun _ => true) [] 0 1 true ⟨0, 0, 1, 1⟩).getD []
        ++ (count_tiles (fun _ => true) [] 0 1 true ⟨0, 1, 1, 1⟩).getD []
        ++ (count_tiles (fun _ => true) [] 0 1 true ⟨1, 0, 1, 1⟩).getD []
        ++ (count_tiles (fun _ => true) [] 0 1 true ⟨1, 1, 1, 1⟩).getD []) :=
  claim_C4 (fun _ => true) [] 0 1 true ⟨0, 0, 0, 1⟩ rfl (by decide)

/-- Claim C5: a tile `t` visited by `count_tiles` (extent test passed)
with `minZoom ≤ t.z ≤ maxZoom` is included in the output of the call
that visits it if and only if `renderOutsideTiles` is true or at least
one layer's transformed extent intersects the tile rectangle; the
per-layer loop (`firstLayerMatch`, embedding the `for ... break` scan)
stops at the first matching layer and agrees with the existential. -/
theorem claim_C5 (ext : Tile → Bool) (layers : List LayerTest)
    (minZoom maxZoom : Nat) (ro : Bool) (t : Tile)
    (hext : ext t = true) (hmin : minZoom ≤ t.z) (hmax : t.z ≤ maxZoom) :
    (t ∈ (count_tiles ext layers minZoom maxZoom ro t).getD [] ↔
      (ro = true ∨ ∃ l ∈ layers, l t = true)) ∧
    firstLayerMatch layers t = layers.any fun l => l t := by
  refine ⟨?_, firstLayerMatch_eq_any layers t⟩
  have hinc : t ∈ includeTiles layers minZoom maxZoom ro t ↔
      (ro = true ∨ ∃ l ∈ layers, l t = true) := by
    unfold includeTiles
    rw [if_pos ⟨hmin, hmax⟩]
    cases ro with
    | false =>
      rw [if_pos rfl]
      rw [firstLayerMatch_eq_any]
      by_cases hm : (layers.any fun l => l t) = true
      · rw [if_pos hm]
        simp only [List.mem_singleton]
        simp only [List.any_eq_true] at hm
        simp [hm]
      · rw [if_neg hm]
        simp only [List.any_eq_true] at hm
        simp [hm]
    | true => simp
  by_cases hlt : t.z < maxZoom
  · rw [count_tiles_step ext layers minZoom maxZoom ro t hext hlt]
    simp only [Option.getD_some, List.mem_append]
    constructor
    · intro h
      rcases h with ((((hself | h1) | h2) | h3) | h4)
      · exact hinc.mp hself
      · have := (mem_count_tiles_ancestors h1).1
        exact absurd this (by simp)
      · have := (mem_count_tiles_ancestors h2).1
        exact absurd this (by simp)
      · have := (mem_count_tiles_ancestors h3).1
        exact absurd this (by simp)
      · have := (mem_count_tiles_ancestors h4).1
        exact absurd this (by simp)
    · intro h
      exact Or.inl (Or.inl (Or.inl (Or.inl (hinc.mpr h))))
  · rw [count_tiles_leaf ext layers minZoom maxZoom ro t hext hlt]
    simpa using hinc

theorem claim_C5_witness :
    (fun _ : Tile => true) (⟨0, 0, 0, -1⟩ : Tile) = true ∧ 0 ≤ 0 ∧ 0 ≤ 0 ∧
    ((⟨0, 0, 0, -1⟩ : Tile) ∈
        (count_tiles (fun _ => true) [fun _ => true] 0 0 false
          ⟨0, 0, 0, -1⟩).getD [] ↔
      ((false = true) ∨ ∃ l ∈ [fun _ : Tile => true], l ⟨0, 0, 0, -1⟩ = true)) :=
  ⟨rfl, le_refl 0, le_refl 0,
    (claim_C5 (fun _ => true) [fun _ => true] 0 0 false ⟨0, 0, 0, -1⟩
      rfl (le_refl 0) (le_refl 0)).1⟩

/-- Claim C6: with an extent and a single layer that intersect every
tile rectangle (whole globe), `minZoom = 0`, `maxZoom = 2` and
`renderOutsideTiles = false`, `count_tiles` started at the root returns
exactly `1 + 4 + 16 = 21` tiles: precisely the set of all tile
addresses at zoom levels 0, 1 and 2, without duplicates. -/
theorem claim_C6 :
    ((count_tiles (fun _ => true) [fun _ => true] 0 2 false
        ⟨0, 0, 0, -1⟩).getD []).length = 21 ∧
    (((count_tiles (fun _ => true) [fun _ => true] 0 2 false
        ⟨0, 0, 0, -1⟩).getD []).all fun t =>
          decide (t ∈ allTilesUpTo 2 (-1))) = true ∧
    ((allTilesUpTo 2 (-1)).all fun t =>
        decide (t ∈ (count_tiles (fun _ => true) [fun _ => true] 0 2 false
          ⟨0, 0, 0, -1⟩).getD [])) = true ∧
    ((count_tiles (fun _ => true) [fun _ => true] 0 2 false
        ⟨0, 0, 0, -1⟩).getD []).Nodup := by
  refine ⟨by decide, by decide, by decide, by decide⟩

end QTiles

namespace QTiles

/-! ### Pipeline lemmas and claims -/

theorem threadRun_gate_stop (n : Nat) (stopAfter : Option Nat)
    (h : n > warring_threshold_tiles_count) :
    threadRun n GateDecision.stop stopAfter =
      { thresholdEvents := [warring_threshold_tiles_count], rendered := 0,
        finalizeCalls := 0, terminal := Terminal.interrupted } := by
  unfold threadRun
  rw [if_pos ⟨h, rfl⟩]
  simp [h]

theorem threadRun_no_gate_stop (n : Nat) (gate : GateDecision)
    (stopAfter : Option Nat)
    (h : ¬(n > warring_threshold_tiles_count ∧ gate = GateDecision.stop)) :
    threadRun n gate stopAfter =
      { thresholdEvents :=
          if n > warring_threshold_tiles_count then
            [warring_threshold_tiles_count]
          else [],
        rendered := (renderLoop n stopAfter).1, finalizeCalls := 1,
        terminal :=
          if (renderLoop n stopAfter).2 then Terminal.interrupted
          else Terminal.finished } := by
  unfold threadRun
  rw [if_neg h]

theorem threadRun_thresholdEvents (n : Nat) (gate : GateDecision)
    (stopAfter : Option Nat) :
    (threadRun n gate stopAfter).thresholdEvents =
      if n > warring_threshold_tiles_count then
        [warring_threshold_tiles_count]
      else [] := by
  by_cases h : n > warring_threshold_tiles_count ∧ gate = GateDecision.stop
  · obtain ⟨h1, h2⟩ := h
    subst h2
    rw [threadRun_gate_stop n stopAfter h1, if_pos h1]
  · rw [threadRun_no_gate_stop n gate stopAfter h]

/-- Claim C1, counterexample: a run whose tile list exceeds the
threshold and whose gate decision is `confirmStop` returns from `run`
at the early `return` after the gate, before `self.writer.finalize()`:
the sink's `finalize` is called zero times, not once, on this terminal
path. -/
theorem claim_C1_counterexample :
    (threadRun 10001 GateDecision.stop none).finalizeCalls = 0 ∧
    (threadRun 10001 GateDecision.stop none).terminal =
      Terminal.interrupted ∧
    (threadRun 10001 GateDecision.stop none).rendered = 0 := by
  refine ⟨by decide, by decide, by decide⟩

/-- Claim C1, amended: `sink.finalize()` is called exactly once when
the rendering loop is reached — whether the loop completes naturally or
is interrupted by a `stop()` issued during rendering — but when the run
is stopped at the threshold gate, `run` returns before
`writer.finalize()` and `finalize` is called zero times, leaving that
container unfinalized. -/
theorem claim_C1 (n : Nat) (gate : GateDecision) (stopAfter : Option Nat) :
    (¬(n > warring_threshold_tiles_count ∧ gate = GateDecision.stop) →
      (threadRun n gate stopAfter).finalizeCalls = 1) ∧
    (n > warring_threshold_tiles_count → gate = GateDecision.stop →
      (threadRun n gate stopAfter).finalizeCalls = 0) := by
  constructor
  · intro h
    rw [threadRun_no_gate_stop n gate stopAfter h]
  · intro h1 h2
    subst h2
    rw [threadRun_gate_stop n stopAfter h1]

theorem claim_C1_witness :
    (threadRun 5 GateDecision.cont none).finalizeCalls = 1 ∧
    (threadRun 10001 GateDecision.cont (some 2)).finalizeCalls = 1 ∧
    (threadRun 10001 GateDecision.stop none).finalizeCalls = 0 :=
  ⟨(claim_C1 5 GateDecision.cont none).1 (by decide),
   (claim_C1 10001 GateDecision.cont (some 2)).1 (by decide),
   (claim_C1 10001 GateDecision.stop none).2 (by decide) rfl⟩

/-- Claim C7: with more than 10000 enumerated tiles the pipeline emits
exactly one threshold event carrying 10000 and the outcome depends on
the gate decision: `confirmStop` renders zero tiles and terminates
interrupted, `confirmContinue` (with no `stop()` during rendering)
renders every tile; with at most 10000 tiles no event is emitted and
rendering proceeds directly. -/
theorem claim_C7 (n : Nat) (gate : GateDecision) (stopAfter : Option Nat) :
    (n > warring_threshold_tiles_count →
      (threadRun n gate stopAfter).thresholdEvents =
        [warring_threshold_tiles_count] ∧
      warring_threshold_tiles_count = 10000) ∧
    (n ≤ warring_threshold_tiles_count →
      (threadRun n gate stopAfter).thresholdEvents = [] ∧
      (stopAfter = none → (threadRun n gate stopAfter).rendered = n)) ∧
    (n > warring_threshold_tiles_count → gate = GateDecision.stop →
      (threadRun n gate stopAfter).rendered = 0 ∧
      (threadRun n gate stopAfter).terminal = Terminal.interrupted) ∧
    (gate = GateDecision.cont → stopAfter = none →
      (threadRun n gate stopAfter).rendered = n ∧
      (threadRun n gate stopAfter).terminal = Terminal.finished) := by
  refine ⟨?_, ?_, ?_, ?_⟩
  · intro h
    rw [threadRun_thresholdEvents, if_pos h]
    exact ⟨rfl, rfl⟩
  · intro h
    have hnot : ¬(n > warring_threshold_tiles_count ∧
        gate = GateDecision.stop) := by
      intro hc
      omega
    constructor
    · rw [threadRun_thresholdEvents, if_neg (by omega)]
    · intro hs
      subst hs
      rw [threadRun_no_gate_stop n gate none hnot]
      rfl
  · intro h1 h2
    subst h2
    rw [threadRun_gate_stop n stopAfter h1]
    exact ⟨rfl, rfl⟩
  · intro h1 h2
    subst h1
    subst h2
    rw [threadRun_no_gate_stop n GateDecision.cont none (by simp)]
    exact ⟨rfl, rfl⟩

theorem claim_C7_witness :
    (threadRun 10001 GateDecision.stop none).thresholdEvents = [10000] ∧
    (threadRun 10001 GateDecision.stop none).rendered = 0 ∧
    (threadRun 10001 GateDecision.stop none).terminal =
      Terminal.interrupted ∧
    (threadRun 10001 GateDecision.cont none).rendered = 10001 ∧
    (threadRun 10000 GateDecision.cont none).thresholdEvents = [] :=
  ⟨((claim_C7 10001 GateDecision.stop none).1 (by decide)).1,
   (((claim_C7 10001 GateDecision.stop none).2.2.1 (by decide)) rfl).1,
   (((claim_C7 10001 GateDecision.stop none).2.2.1 (by decide)) rfl).2,
   ((claim_C7 10001 GateDecision.cont none).2.2.2 rfl rfl).1,
   ((claim_C7 10000 GateDecision.cont none).2.1 (by decide)).1⟩

/-- Claim C9: whenever the output file's suffix lowercases to
"mbtiles", the TMS row convention is forced on — in
`QTilesDialog.accept` before the tile list is built, and again in
`TilingThread.__init__` (whose MBTILES mode is selected for a
non-directory output with that suffix) — regardless of the
user-supplied flag; in every other output mode the incoming flag is
honoured. -/
theorem claim_C9 (suffix : List Char) (userFlag incoming : Bool)
    (isDir : Bool) :
    (strLower suffix = "mbtiles".data →
      dialog_tmsConvention suffix userFlag = true ∧
      threadMode false suffix = some OutputMode.mbtiles ∧
      thread_tmsConvention false suffix incoming = true) ∧
    (strLower suffix ≠ "mbtiles".data →
      dialog_tmsConvention suffix userFlag = userFlag) ∧
    (threadMode isDir suffix ≠ some OutputMode.mbtiles →
      thread_tmsConvention isDir suffix incoming = incoming) := by
  refine ⟨?_, ?_, ?_⟩
  · intro h
    have hmode : threadMode false suffix = some OutputMode.mbtiles := by
      simp only [threadMode, h]
      decide
    exact ⟨by simp [dialog_tmsConvention, h],
      hmode, by simp [thread_tmsConvention, hmode]⟩
  · intro h
    simp [dialog_tmsConvention, h]
  · intro h
    simp [thread_tmsConvention, h]

theorem claim_C9_witness :
    dialog_tmsConvention "MBTILES".data false = true ∧
    threadMode false "MBTILES".data = some OutputMode.mbtiles ∧
    thread_tmsConvention false "MBTILES".data false = true ∧
    dialog_tmsConvention "zip".data false = false ∧
    thread_tmsConvention true "mbtiles".data false = false :=
  ⟨((claim_C9 "MBTILES".data false false false).1 (by decide)).1,
   ((claim_C9 "MBTILES".data false false false).1 (by decide)).2.1,
   ((claim_C9 "MBTILES".data false false false).1 (by decide)).2.2,
   (claim_C9 "zip".data false false false).2.1 (by decide),
   (claim_C9 "mbtiles".data false false true).2.2 (by decide)⟩

end QTiles

namespace QTiles

/-! ### `NGMArchiveWriter` lemmas and claim C10 -/

/-- Every per-level entry holds nonempty coordinate lists (true of all
states reachable through `ngmWriteTile`). -/
def WfLevels (levels : NgmLevels) : Prop :=
  ∀ e ∈ levels, e.2.1 ≠ [] ∧ e.2.2 ≠ []

theorem mem_setLevel (z : Nat) (v : List Nat × List Nat)
    (e : Nat × (List Nat × List Nat)) :
    ∀ levels : NgmLevels, e ∈ setLevel levels z v →
      e = (z, v) ∨ e ∈ levels := by
  intro levels
  induction levels with
  | nil =>
    intro h
    simp only [setLevel, List.mem_singleton] at h
    exact Or.inl h
  | cons kw rest ih =>
    obtain ⟨k, w⟩ := kw
    intro h
    rw [setLevel] at h
    by_cases hk : k = z
    · rw [if_pos hk] at h
      rcases List.mem_cons.mp h with h1 | h1
      · subst hk
        exact Or.inl h1
      · exact Or.inr (List.mem_cons_of_mem _ h1)
    · rw [if_neg hk] at h
      rcases List.mem_cons.mp h with h1 | h1
      · exact Or.inr (h1 ▸ List.mem_cons_self _ _)
      · rcases ih h1 with h2 | h2
        · exact Or.inl h2
        · exact Or.inr (List.mem_cons_of_mem _ h2)

theorem setLevel_ne_nil (levels : NgmLevels) (z : Nat)
    (v : List Nat × List Nat) : setLevel levels z v ≠ [] := by
  cases levels with
  | nil => simp [setLevel]
  | cons kw rest =>
    obtain ⟨k, w⟩ := kw
    rw [setLevel]
    split <;> simp

theorem wf_ngmWriteTile {levels : NgmLevels} (h : WfLevels levels)
    (t : Tile) : WfLevels (ngmWriteTile levels t) := by
  intro e he
  unfold ngmWriteTile at he
  rcases mem_setLevel _ _ _ _ he with h1 | h1
  · subst h1
    exact ⟨by simp, by simp⟩
  · exact h e h1

theorem ngmWriteTile_ne_nil (levels : NgmLevels) (t : Tile) :
    ngmWriteTile levels t ≠ [] :=
  setLevel_ne_nil _ _ _

theorem foldl_ngmWriteTile_wf :
    ∀ (writes : List Tile) (levels : NgmLevels), WfLevels levels →
      WfLevels (writes.foldl ngmWriteTile levels) := by
  intro writes
  induction writes with
  | nil => exact fun levels h => h
  | cons w ws ih => exact fun levels h => ih _ (wf_ngmWriteTile h w)

theorem foldl_ngmWriteTile_ne_nil :
    ∀ (writes : List Tile) (levels : NgmLevels), levels ≠ [] →
      writes.foldl ngmWriteTile levels ≠ [] := by
  intro writes
  induction writes with
  | nil => exact fun levels h => h
  | cons w ws ih => exact fun levels _ => ih _ (ngmWriteTile_ne_nil _ _)

theorem ngmLevelEntry_isSome {e : Nat × (List Nat × List Nat)}
    (h1 : e.2.1 ≠ []) (h2 : e.2.2 ≠ []) : (ngmLevelEntry e).isSome := by
  obtain ⟨z, xs, ys⟩ := e
  cases xs with
  | nil => exact absurd rfl h1
  | cons a as =>
    cases ys with
    | nil => exact absurd rfl h2
    | cons b bs => rfl

theorem mapM_ngmLevelEntry_isSome :
    ∀ levels : NgmLevels, (∀ e ∈ levels, (ngmLevelEntry e).isSome) →
      (levels.mapM ngmLevelEntry).isSome := by
  intro levels
  induction levels with
  | nil => exact fun _ => rfl
  | cons e rest ih =>
    intro h
    have h1 := h e (List.mem_cons_self _ _)
    obtain ⟨b, hb⟩ := Option.isSome_iff_exists.mp h1
    have h2 := ih fun x hx => h x (List.mem_cons_of_mem _ hx)
    obtain ⟨bs, hbs⟩ := Option.isSome_iff_exists.mp h2
    rw [List.mapM_cons, hb, hbs]
    rfl

theorem ngmFinalize_cons (e : Nat × (List Nat × List Nat))
    (rest : NgmLevels) :
    ngmFinalize (e :: rest) =
      ((e :: rest).mapM ngmLevelEntry).map fun es =>
        { max_level := (rest.map Prod.fst).foldl max e.1,
          min_level := (rest.map Prod.fst).foldl min e.1,
          levels := es } := rfl

theorem ngmFinalize_isSome {levels : NgmLevels} (hne : levels ≠ [])
    (hwf : WfLevels levels) : (ngmFinalize levels).isSome := by
  cases levels with
  | nil => exact absurd rfl hne
  | cons e rest =>
    rw [ngmFinalize_cons, Option.isSome_map']
    exact mapM_ngmLevelEntry_isSome _ fun x hx =>
      ngmLevelEntry_isSome (hwf x hx).1 (hwf x hx).2

/-- Claim C10: `NGMArchiveWriter.finalize` requires at least one
preceding `writeTile`.  With the initial empty `levels` dictionary,
`max()`/`min()` over the keys raises (`ngmFinalize [] = none`); after
any nonempty sequence of `writeTile` calls the dictionary is nonempty
with nonempty per-level coordinate lists, so the manifest computation
succeeds and the error branch is unreachable. -/
theorem claim_C10 (writes : List Tile) (hne : writes ≠ []) :
    ngmFinalize [] = none ∧
    (ngmFinalize (writes.foldl ngmWriteTile [])).isSome = true := by
  refine ⟨rfl, ?_⟩
  have hwf : WfLevels (writes.foldl ngmWriteTile []) :=
    foldl_ngmWriteTile_wf writes [] (by intro e he; simp at he)
  have hnil : writes.foldl ngmWriteTile [] ≠ [] := by
    cases writes with
    | nil => exact absurd rfl hne
    | cons w ws =>
      exact foldl_ngmWriteTile_ne_nil ws _ (ngmWriteTile_ne_nil [] w)
  exact ngmFinalize_isSome hnil hwf

theorem claim_C10_witness :
    [(⟨3, 4, 2, 1⟩ : Tile)] ≠ [] ∧
    ngmFinalize [] = none ∧
    (ngmFinalize ([(⟨3, 4, 2, 1⟩ : Tile)].foldl ngmWriteTile [])).isSome
      = true :=
  ⟨by decide, (claim_C10 [⟨3, 4, 2, 1⟩] (by decide)).1,
    (claim_C10 [⟨3, 4, 2, 1⟩] (by decide)).2⟩

end QTiles

namespace QTiles

/-! ### Compaction lemmas and claim C8 -/

theorem find?_append_some {α : Type} (p : α → Bool) {l1 : List α}
    (l2 : List α) {e : α} (h : l1.find? p = some e) :
    (l1 ++ l2).find? p = some e := by
  rw [List.find?_append, h]
  rfl

/-- References recorded in the reference table stay valid: later
compaction steps only append to `blobs` and to the reference table, so
a coordinate already bound resolves to the same payload. -/
theorem lookupPost_stable (hash : Bytes → Nat) :
    ∀ (rows : List TileRow) (blobs : List Bytes)
      (tiles2 : List ((Nat × Nat × Nat) × Nat)) (c : Nat × Nat × Nat)
      (e : (Nat × Nat × Nat) × Nat),
      tiles2.find? (fun x => x.1 = c) = some e → e.2 < blobs.length →
      lookupPost (compactGo hash blobs tiles2 rows) c = blobs[e.2]? := by
  intro rows
  induction rows with
  | nil =>
    intro blobs tiles2 c e hf hlt
    show (tiles2.find? fun x => x.1 = c).bind (fun a => blobs[a.2]?) =
      blobs[e.2]?
    rw [hf]
    rfl
  | cons row rest ih =>
    intro blobs tiles2 c e hf hlt
    cases hidx : blobs.findIdx?
        (fun b => hash b == hash row.data && b == row.data) with
    | some i =>
      rw [compactGo, hidx]
      show lookupPost (compactGo hash blobs
        (tiles2 ++ [((row.z, row.x, row.y), i)]) rest) c = blobs[e.2]?
      exact ih blobs _ c e (find?_append_some _ _ hf) hlt
    | none =>
      rw [compactGo, hidx]
      show lookupPost (compactGo hash (blobs ++ [row.data])
        (tiles2 ++ [((row.z, row.x, row.y), blobs.length)]) rest) c =
        blobs[e.2]?
      rw [ih (blobs ++ [row.data]) _ c e (find?_append_some _ _ hf)
        (by simp only [List.length_append, List.length_singleton]; omega)]
      rw [List.getElem?_append]
      rw [if_pos hlt]

theorem compactGo_lookup (hash : Bytes → Nat) :
    ∀ (rows : List TileRow) (blobs : List Bytes)
      (tiles2 : List ((Nat × Nat × Nat) × Nat)) (c : Nat × Nat × Nat),
      tiles2.find? (fun x => x.1 = c) = none →
      lookupPost (compactGo hash blobs tiles2 rows) c = lookupPre rows c := by
  intro rows
  induction rows with
  | nil =>
    intro blobs tiles2 c hnone
    show (tiles2.find? fun x => x.1 = c).bind (fun a => blobs[a.2]?) =
      lookupPre [] c
    rw [hnone]
    rfl
  | cons row rest ih =>
    intro blobs tiles2 c hnone
    by_cases hc : ((row.z, row.x, row.y) : Nat × Nat × Nat) = c
    · cases hidx : blobs.findIdx?
          (fun b => hash b == hash row.data && b == row.data) with
      | some i =>
        obtain ⟨hlt, hp, _⟩ := List.findIdx?_eq_some_iff_getElem.mp hidx
        have hib : blobs[i]? = some row.data := by
          have h2 : blobs[i] = row.data := by
            simp only [Bool.and_eq_true, beq_iff_eq] at hp
            exact hp.2
          rw [List.getElem?_eq_getElem hlt, h2]
        rw [compactGo, hidx]
        show lookupPost (compactGo hash blobs
          (tiles2 ++ [((row.z, row.x, row.y), i)]) rest) c =
          lookupPre (row :: rest) c
        have hf : (tiles2 ++ [((row.z, row.x, row.y), i)]).find?
            (fun x => x.1 = c) = some ((row.z, row.x, row.y), i) := by
          rw [List.find?_append, hnone, Option.none_or,
            List.find?_cons_of_pos _ (by simp [hc])]
        rw [lookupPost_stable hash rest blobs _ c _ hf hlt, hib]
        unfold lookupPre
        rw [List.find?_cons_of_pos _ (by simp [hc])]
        rfl
      | none =>
        rw [compactGo, hidx]
        show lookupPost (compactGo hash (blobs ++ [row.data])
          (tiles2 ++ [((row.z, row.x, row.y), blobs.length)]) rest) c =
          lookupPre (row :: rest) c
        have hf : (tiles2 ++ [((row.z, row.x, row.y), blobs.length)]).find?
            (fun x => x.1 = c) =
            some ((row.z, row.x, row.y), blobs.length) := by
          rw [List.find?_append, hnone, Option.none_or,
            List.find?_cons_of_pos _ (by simp [hc])]
        have hlt : blobs.length < (blobs ++ [row.data]).length := by simp
        rw [lookupPost_stable hash rest (blobs ++ [row.data]) _ c _ hf hlt]
        rw [List.getElem?_concat_length]
        unfold lookupPre
        rw [List.find?_cons_of_pos _ (by simp [hc])]
        rfl
    · have hpre : lookupPre (row :: rest) c = lookupPre rest c := by
        unfold lookupPre
        rw [List.find?_cons_of_neg _ (by simp [hc])]
      have hnone2 : ∀ i : Nat,
          (tiles2 ++ [((row.z, row.x, row.y), i)]).find?
            (fun x => x.1 = c) = none := by
        intro i
        rw [List.find?_append, hnone, Option.none_or,
          List.find?_cons_of_neg _ (by simp [hc])]
        rfl
      cases hidx : blobs.findIdx?
          (fun b => hash b == hash row.data && b == row.data) with
      | some i =>
        rw [compactGo, hidx]
        show lookupPost (compactGo hash blobs
          (tiles2 ++ [((row.z, row.x, row.y), i)]) rest) c =
          lookupPre (row :: rest) c
        rw [ih blobs _ c (hnone2 i), hpre]
      | none =>
        rw [compactGo, hidx]
        show lookupPost (compactGo hash (blobs ++ [row.data])
          (tiles2 ++ [((row.z, row.x, row.y), blobs.length)]) rest) c =
          lookupPre (row :: rest) c
        rw [ih _ _ c (hnone2 blobs.length), hpre]

/-- Claim C8 (the compaction pass is modelled from the spec, since
`mbutils.py` is not under `src/`): for every coordinate
`(zoom_level, tile_column, tile_row)` present before compaction, the
post-compaction lookup that follows `data_ref` into the `blobs` table
returns byte-identical data — the externally visible
`(z, x, y) -> bytes` projection is unchanged by the deduplication
pass, for every hash function (collisions are resolved by full-content
equality). -/
theorem claim_C8 (hash : Bytes → Nat) (rows : List TileRow)
    (c : Nat × Nat × Nat) :
    lookupPost (compact hash rows) c = lookupPre rows c :=
  compactGo_lookup hash rows [] [] c rfl

end QTiles
